import Mathlib

/-!
Verification of the retrieval pipeline in `TASK 3 - RAG Knowledge Base/main.py`.

Shallow embedding conventions:
* Python strings are Lean `String`s; `str.split()` is modelled by `pySplit`
  (split on whitespace characters, dropping empty pieces).
* Python list slicing `xs[a:b]` (with possibly negative bounds) is `pySlice`.
* The `while` loop of `chunk_text` is modelled with explicit fuel, because the
  source loop does not terminate when `chunk_size - overlap <= 0`; `none`
  means the fuel ran out before the loop exited.
* Embedding vectors are lists of rationals; the sentence-transformer model,
  the faiss search engine and the language detector are external capabilities
  and enter as function parameters.
* The filesystem state visible to the program (the docs directory and the two
  persisted artifacts `index.faiss` / `index_meta.pkl`) is an explicit record
  `FS`; raising an exception is modelled with `Except String`.
-/

/-- Whitespace recognised by Python's `str.split()` (ASCII subset). -/
def isPyWhitespace (c : Char) : Bool :=
  c = ' ' || c = '\t' || c = '\n' || c = '\r' || c = '\x0b' || c = '\x0c'

/-- Helper for `pySplit`: scan the character list, `acc` holding the characters
of the current token in reverse; whitespace ends the current token (if any),
and a token is emitted only when non-empty — exactly Python's `str.split()`
with no separator argument. -/
def pySplitAux (cs : List Char) (acc : List Char) : List String :=
  match cs with
  | [] => match acc with
    | [] => []
    | _ => [String.mk acc.reverse]
  | c :: rest =>
      if isPyWhitespace c then
        match acc with
        | [] => pySplitAux rest []
        | _ => String.mk acc.reverse :: pySplitAux rest []
      else pySplitAux rest (c :: acc)

/-- Python `text.split()`: split on whitespace runs, dropping empty tokens. -/
def pySplit (s : String) : List String :=
  pySplitAux s.data []

/-- Clamp one bound of a Python slice to a valid position in a list of
length `len`: negative indices count from the end. -/
def pyClamp (len : Nat) (a : Int) : Nat :=
  if a < 0 then ((len : Int) + a).toNat else min a.toNat len

/-- Python list slicing `xs[a:b]`. -/
def pySlice {α : Type} (xs : List α) (a b : Int) : List α :=
  (xs.take (pyClamp xs.length b)).drop (pyClamp xs.length a)

/-- The `while i < len(tokens)` loop of `chunk_text` in `main.py`, with fuel.
Each iteration appends `" ".join(tokens[i : i + chunk_size])` and advances
`i` by `chunk_size - overlap`.  `none` means the fuel was exhausted while the
loop condition still held (the source loop would still be running). -/
def chunkLoopFuel (tokens : List String) (chunk_size overlap : Int) :
    Nat → Int → Option (List String)
  | 0, i =>
      if i < (tokens.length : Int) then none else some []
  | fuel + 1, i =>
      if i < (tokens.length : Int) then
        (chunkLoopFuel tokens chunk_size overlap fuel (i + (chunk_size - overlap))).map
          (fun rest =>
            String.intercalate " " (pySlice tokens i (i + chunk_size)) :: rest)
      else some []

/-- `chunk_text(text, chunk_size, overlap)` from `main.py`:
`tokens = text.split()` then the windowing loop starting at `i = 0`. -/
def chunk_text (text : String) (chunk_size overlap : Int) (fuel : Nat) :
    Option (List String) :=
  chunkLoopFuel (pySplit text) chunk_size overlap fuel 0

/-- Closed form of the chunking loop for a positive step `cs - ov`:
window `j` consists of the `cs` tokens starting at position `j * (cs - ov)`,
and there are `⌈len / (cs - ov)⌉` windows. -/
def chunksPos (tokens : List String) (cs ov : Nat) : List String :=
  (List.range ((tokens.length + (cs - ov) - 1) / (cs - ov))).map
    (fun j => String.intercalate " " ((tokens.drop (j * (cs - ov))).take cs))

lemma pySplitAux_ne_empty (cs : List Char) :
    ∀ (acc : List Char), ∀ t ∈ pySplitAux cs acc, t ≠ "" := by
  induction cs with
  | nil =>
      intro acc t ht
      cases acc with
      | nil => simp [pySplitAux] at ht
      | cons a as =>
          simp [pySplitAux] at ht
          subst ht
          intro hcon
          rw [String.ext_iff] at hcon
          simp at hcon
  | cons c rest ih =>
      intro acc t ht
      unfold pySplitAux at ht
      by_cases hc : isPyWhitespace c
      · rw [if_pos hc] at ht
        cases acc with
        | nil => exact ih [] t ht
        | cons a as =>
            simp only [List.mem_cons] at ht
            rcases ht with ht | ht
            · subst ht
              intro hcon
              rw [String.ext_iff] at hcon
              simp at hcon
            · exact ih [] t ht
      · rw [if_neg hc] at ht
        exact ih (c :: acc) t ht

lemma mem_pySplit_ne_empty (s : String) : ∀ t ∈ pySplit s, t ≠ "" := by
  intro t ht
  exact pySplitAux_ne_empty s.data [] t ht

lemma intercalate_go_append (l : List String) :
    ∀ acc s : String, ∃ t, String.intercalate.go acc s l = acc ++ t := by
  induction l with
  | nil =>
      intro acc s
      exact ⟨"", by simp [String.intercalate.go]⟩
  | cons a as ih =>
      intro acc s
      obtain ⟨t, ht⟩ := ih (acc ++ s ++ a) s
      refine ⟨s ++ a ++ t, ?_⟩
      rw [String.intercalate.go, ht]
      simp [String.append_assoc]

lemma ne_empty_of_length_pos {s : String} (h : 0 < s.length) : s ≠ "" := by
  intro hcon
  rw [hcon] at h
  simp at h

lemma length_pos_of_ne_empty {s : String} (h : s ≠ "") : 0 < s.length := by
  by_contra hcon
  push_neg at hcon
  have hz : s.length = 0 := Nat.le_zero.mp hcon
  have : s.data = [] := List.length_eq_zero.mp hz
  exact h (String.ext this)

lemma intercalate_cons_ne_empty (a : String) (rest : List String)
    (ha : a ≠ "") : String.intercalate " " (a :: rest) ≠ "" := by
  obtain ⟨t, ht⟩ := intercalate_go_append rest a " "
  show String.intercalate.go a " " rest ≠ ""
  rw [ht]
  apply ne_empty_of_length_pos
  rw [String.length_append]
  have := length_pos_of_ne_empty ha
  omega

lemma drop_min_length {α : Type} (xs : List α) (a : Nat) :
    xs.drop (min a xs.length) = xs.drop a := by
  rcases le_or_lt a xs.length with h | h
  · rw [min_eq_left h]
  · rw [min_eq_right (le_of_lt h)]
    rw [List.drop_eq_nil_of_le (le_refl _), List.drop_eq_nil_of_le (le_of_lt h)]

lemma pySlice_nat {α : Type} (xs : List α) (a b : Nat) :
    pySlice xs (a : Int) (b : Int) = (xs.drop a).take (b - a) := by
  unfold pySlice pyClamp
  have ha : ¬ ((a : Int) < 0) := by omega
  have hb : ¬ ((b : Int) < 0) := by omega
  simp only [if_neg ha, if_neg hb, Int.toNat_natCast]
  rw [List.drop_take, ← drop_min_length xs a]
  apply List.take_eq_take.mpr
  simp only [List.length_drop]
  omega


lemma numWin_succ (m step : Nat) (hstep : 0 < step) (hm : 1 ≤ m) :
    (m + step - 1) / step = ((m - step) + step - 1) / step + 1 := by
  rcases le_or_lt m step with h | h
  · have h1 : m - step = 0 := by omega
    rw [h1]
    have h2 : (0 + step - 1) / step = 0 := Nat.div_eq_of_lt (by omega)
    rw [h2]
    exact Nat.div_eq_of_lt_le (by omega) (by omega)
  · have h1 : m + step - 1 = ((m - step) + step - 1) + step := by omega
    rw [h1, Nat.add_div_right _ hstep]

lemma chunkLoopFuel_closed (tokens : List String) (cs ov : Nat) (hov : ov < cs) :
    ∀ (fuel i : Nat), tokens.length ≤ i + fuel →
      chunkLoopFuel tokens (cs : Int) (ov : Int) fuel (i : Int) =
        some ((List.range ((tokens.length - i + (cs - ov) - 1) / (cs - ov))).map
          (fun j => String.intercalate " " ((tokens.drop (i + j * (cs - ov))).take cs))) := by
  intro fuel
  induction fuel with
  | zero =>
      intro i hle
      have hni : ¬ ((i : Int) < (tokens.length : Int)) := by omega
      have hr : (tokens.length - i + (cs - ov) - 1) / (cs - ov) = 0 := by
        have h0 : tokens.length - i = 0 := by omega
        rw [h0]
        exact Nat.div_eq_of_lt (by omega)
      simp [chunkLoopFuel, hni, hr]
  | succ fuel ih =>
      intro i hle
      by_cases hi : i < tokens.length
      · have hi' : ((i : Int) < (tokens.length : Int)) := by omega
        rw [chunkLoopFuel, if_pos hi']
        have hidx : (i : Int) + ((cs : Int) - (ov : Int)) =
            ((i + (cs - ov) : Nat) : Int) := by omega
        rw [hidx, ih (i + (cs - ov)) (by omega)]
        have hslice : (i : Int) + (cs : Int) = ((i + cs : Nat) : Int) := by
          push_cast
          ring
        rw [hslice, pySlice_nat tokens i (i + cs)]
        simp only [Option.map_some']
        congr 1
        have hN : (tokens.length - i + (cs - ov) - 1) / (cs - ov) =
            (tokens.length - (i + (cs - ov)) + (cs - ov) - 1) / (cs - ov) + 1 := by
          have hs := numWin_succ (tokens.length - i) (cs - ov) (by omega) (by omega)
          rw [hs]
          congr 2
          omega
        rw [hN, List.range_succ_eq_map, List.map_cons, List.map_map]
        congr 1
        · simp
        · apply List.map_congr_left
          intro j hj
          simp only [Function.comp_apply]
          have harith : i + Nat.succ j * (cs - ov) = i + (cs - ov) + j * (cs - ov) := by
            rw [Nat.succ_mul]
            omega
          rw [harith]
      · have hni : ¬ ((i : Int) < (tokens.length : Int)) := by omega
        have hr : (tokens.length - i + (cs - ov) - 1) / (cs - ov) = 0 := by
          have h0 : tokens.length - i = 0 := by omega
          rw [h0]
          exact Nat.div_eq_of_lt (by omega)
        simp [chunkLoopFuel, hni, hr]

/-- With a positive step and fuel at least the token count, the loop
terminates and produces the closed-form list of windows. -/
lemma chunk_text_eq_chunksPos (text : String) (cs ov : Nat) (hov : ov < cs) :
    chunk_text text (cs : Int) (ov : Int) (pySplit text).length =
      some (chunksPos (pySplit text) cs ov) := by
  unfold chunk_text chunksPos
  have h := chunkLoopFuel_closed (pySplit text) cs ov hov (pySplit text).length 0
    (by omega)
  simpa using h

lemma chunkLoopFuel_nonpos_step (tokens : List String) (cs ov : Int)
    (hov : cs ≤ ov) (htok : tokens ≠ []) :
    ∀ (fuel : Nat) (i : Int), i ≤ 0 → chunkLoopFuel tokens cs ov fuel i = none := by
  have hlen : 0 < tokens.length := List.length_pos.mpr htok
  intro fuel
  induction fuel with
  | zero =>
      intro i hi
      have hlt : i < (tokens.length : Int) := by omega
      simp [chunkLoopFuel, hlt]
  | succ fuel ih =>
      intro i hi
      have hlt : i < (tokens.length : Int) := by omega
      rw [chunkLoopFuel, if_pos hlt, ih (i + (cs - ov)) (by omega)]
      rfl

/-- A chunk-metadata record, as stored in `index_meta.pkl`. -/
structure ChunkMeta where
  source : String
  chunk_idx : Nat
  text : String
  deriving DecidableEq, Repr

/-- The in-memory faiss `IndexFlatIP`: a dimension and the stored vectors
(floats modelled as rationals). -/
structure FaissIndex where
  dim : Nat
  vectors : List (List ℚ)
  deriving DecidableEq, Repr

/-- The filesystem state the program touches: the docs directory (`none`
when `./docs` does not exist; otherwise the `(path, text)` files in it) and
the two persisted artifacts `index.faiss` and `index_meta.pkl`. -/
structure FS where
  docs : Option (List (String × String))
  index_file : Option FaissIndex
  meta_file : Option (List ChunkMeta)
  deriving DecidableEq, Repr

/-- Helper for `basename`: characters of the last `/`-separated component. -/
def basenameAux : List Char → List Char → List Char
  | [], acc => acc.reverse
  | c :: rest, acc =>
      if c = '/' then basenameAux rest [] else basenameAux rest (c :: acc)

/-- `os.path.basename`. -/
def basename (p : String) : String := String.mk (basenameAux p.data [])

/-- Does `name` end with `ext` (the glob patterns `*.txt` / `*.md`)? -/
def endsWithExt (ext : String) (name : String) : Bool :=
  name.data.reverse.take ext.data.length == ext.data.reverse

/-- `load_text_files` from `main.py`: collect the `*.txt` files and then the
`*.md` files of the docs directory, each path paired with its text. -/
def load_text_files (files : List (String × String)) : List (String × String) :=
  files.filter (fun f => endsWithExt ".txt" f.1) ++
    files.filter (fun f => endsWithExt ".md" f.1)

/-- Python string slicing `s[:n]` (the first `n` characters). -/
def strTake (s : String) (n : Nat) : String := String.mk (s.data.take n)

/-- The chunking performed by `build_index` (`chunk_text(text, 300, 50)`),
written with the closed form of the loop; `chunk_text_300_agrees` below
proves it equal to running the loop model itself. -/
def chunkText300 (text : String) : List String := chunksPos (pySplit text) 300 50

lemma chunk_text_300_agrees (text : String) :
    chunk_text text 300 50 (pySplit text).length = some (chunkText300 text) := by
  have h := chunk_text_eq_chunksPos text 300 50 (by omega)
  unfold chunkText300
  exact_mod_cast h

/-- One chunk produced during a build: originating file, ordinal within that
file, and the full (untruncated) chunk text. -/
structure ChunkRec where
  source : String
  chunk_idx : Nat
  full_text : String
  deriving DecidableEq, Repr

/-- The chunk enumeration of `build_index`: for every eligible document in
glob order, its chunks in order, tagged with the basename of the originating
file and the ordinal from `enumerate(chunks)`. -/
def corpusChunks (files : List (String × String)) : List ChunkRec :=
  (load_text_files files).flatMap
    (fun d => (chunkText300 d.2).enum.map (fun p => ⟨basename d.1, p.1, p.2⟩))

/-- `np.vstack(embeddings)` plus `xb.shape`: stacking requires every row to
have the same length; returns the matrix and its column count `dim`. -/
def vstack : List (List ℚ) → Option (List (List ℚ) × Nat)
  | [] => none
  | r :: rs =>
      if rs.all (fun x => x.length == r.length) then some (r :: rs, r.length)
      else none

/-- The dictionary returned by `build_index`: `{"vectors": ..., "dim": ...}`. -/
structure BuildInfo where
  vectors : Nat
  dim : Nat
  deriving DecidableEq, Repr

/-- `build_index` from `main.py`.  `embed` is the sentence-transformer
capability (`model.encode`, called on the full chunk text) and `nrm` is
`faiss.normalize_L2` on one row; both are external and enter as parameters.
The function returns the outcome of the call paired with the filesystem
state it leaves behind: every `raise` in the source happens before the two
artifacts are written, so error outcomes leave `fs` unchanged. -/
def build_index (embed : String → List ℚ) (nrm : List ℚ → List ℚ) (fs : FS) :
    Except String BuildInfo × FS :=
  match fs.docs with
  | none => (Except.error "Docs folder not found", fs)
  | some files =>
      if ((corpusChunks files).map (fun c => embed c.full_text)).isEmpty then
        (Except.error "No text chunks found in docs. Add .txt or .md files to ./docs",
         fs)
      else
        match vstack ((corpusChunks files).map (fun c => embed c.full_text)) with
        | none => (Except.error "vstack: ragged embedding dimensions", fs)
        | some (xb, dim) =>
            (Except.ok ⟨xb.length, dim⟩,
             { fs with index_file := some ⟨dim, xb.map nrm⟩,
                       meta_file := some ((corpusChunks files).map
                         (fun c => ChunkMeta.mk c.source c.chunk_idx
                           (strTake c.full_text 600))) })

/-- `load_index` from `main.py`: fails when either artifact is missing,
otherwise reads both back (deserialization is modelled as exact, per the
faiss/pickle contract). -/
def load_index (fs : FS) : Except String (FaissIndex × List ChunkMeta) :=
  match fs.index_file, fs.meta_file with
  | some index, some meta => Except.ok (index, meta)
  | _, _ => Except.error "Index or meta not found. Run rebuild first."

/-- One element of the `results` list built by `query_index`. -/
structure QueryResult where
  score : ℚ
  source : String
  chunk_idx : Nat
  text : String
  deriving DecidableEq, Repr

/-- The dictionary returned by `query_index`. -/
structure QueryResponse where
  query : String
  lang : String
  results : List QueryResult
  deriving DecidableEq, Repr

/-- The result-assembly loop of `query_index`: iterate over the
`(score, idx)` pairs of `zip(D[0], I[0])`, skip negative ("no match")
indices, and join each remaining index with `meta[idx]`.  `none` models the
`IndexError` Python would raise if some `idx` were out of range of `meta`. -/
def query_results (meta : List ChunkMeta) : List (ℚ × Int) → Option (List QueryResult)
  | [] => some []
  | (score, idx) :: rest =>
      if idx < 0 then query_results meta rest
      else
        match meta.get? idx.toNat with
        | none => none
        | some m =>
            (query_results meta rest).map
              (fun rs => ⟨score, m.source, m.chunk_idx, m.text⟩ :: rs)

/-- `query_index` from `main.py`.  `engine` is the faiss search capability
(`index.search` restricted to the single query row) and `lang` is
`safe_detect_lang`; both are external and enter as parameters.  The query
vector handed to the engine is the normalized embedding of the query. -/
def query_index (embed : String → List ℚ) (nrm : List ℚ → List ℚ)
    (engine : FaissIndex → List ℚ → Nat → List (ℚ × Int))
    (lang : String → String) (fs : FS) (q : String) (k : Nat) :
    Except String QueryResponse :=
  match load_index fs with
  | Except.error e => Except.error e
  | Except.ok (index, meta) =>
      match query_results meta (engine index (nrm (embed q)) k) with
      | none => Except.error "list index out of range"
      | some results => Except.ok ⟨q, lang q, results⟩

lemma start_lt_of_lt_numWin {j len step : Nat} (hstep : 0 < step)
    (hj : j < (len + step - 1) / step) : j * step < len := by
  have h1 : j + 1 ≤ (len + step - 1) / step := hj
  have h2 : (j + 1) * step ≤ len + step - 1 := (Nat.le_div_iff_mul_le hstep).mp h1
  have h3 : (j + 1) * step = j * step + step := by
    rw [Nat.add_mul]
    omega
  omega

/-- The window specification of claim C2 for `tokens = pySplit text`: run
with enough fuel, the loop returns a chunk list whose element `j` is the
`cs`-token window starting at token position `j * (cs - ov)`, with
`⌈len / (cs - ov)⌉` windows in total (so the last partial window is
emitted); every emitted chunk is non-empty; every token position lies in
some window; and chunk `j + 1` starts `cs - ov` positions after chunk `j`. -/
def ChunkSpecHolds (text : String) (cs ov : Nat) : Prop :=
  ∃ chunks,
    chunk_text text (cs : Int) (ov : Int) (pySplit text).length = some chunks ∧
    chunks = (List.range (((pySplit text).length + (cs - ov) - 1) / (cs - ov))).map
      (fun j => String.intercalate " " (((pySplit text).drop (j * (cs - ov))).take cs)) ∧
    (∀ c ∈ chunks, c ≠ "") ∧
    (∀ t < (pySplit text).length, ∃ j < chunks.length,
      j * (cs - ov) ≤ t ∧ t < j * (cs - ov) + cs) ∧
    (∀ j, j + 1 < chunks.length →
      chunks[j + 1]? = some (String.intercalate " "
        (((pySplit text).drop (j * (cs - ov) + (cs - ov))).take cs)))

/-- C2: for every text, `chunk_size > 0` and `0 ≤ overlap < chunk_size`,
`chunk_text` splits the text into whitespace-delimited tokens and emits the
windows of `chunk_size` consecutive tokens at starts `0, step, 2*step, ...`
(`step = chunk_size - overlap`) while the start is below the token count;
the last partial window is emitted, every token is covered, every chunk is
non-empty, chunk `j+1` starts `step` tokens after chunk `j`; and the 2-token
text `"hello world"` with `chunk_size = 300`, `overlap = 50` yields exactly
one chunk, `"hello world"`. -/
theorem chunk_text_windows (text : String) (cs ov : Nat)
    (hcs : 0 < cs) (hov : ov < cs) :
    ChunkSpecHolds text cs ov ∧
      chunk_text "hello world" 300 50 2 = some ["hello world"] := by
  constructor
  · refine ⟨chunksPos (pySplit text) cs ov,
      chunk_text_eq_chunksPos text cs ov hov, rfl, ?_, ?_, ?_⟩
    · -- every emitted chunk is non-empty
      intro c hc
      unfold chunksPos at hc
      obtain ⟨j, hj, rfl⟩ := List.mem_map.mp hc
      rw [List.mem_range] at hj
      have hjs := start_lt_of_lt_numWin (show 0 < cs - ov by omega) hj
      cases hw : ((pySplit text).drop (j * (cs - ov))).take cs with
      | nil =>
          exfalso
          have hlen : 0 < (((pySplit text).drop (j * (cs - ov))).take cs).length := by
            rw [List.length_take, List.length_drop]
            omega
          rw [hw] at hlen
          simp at hlen
      | cons a rest =>
          apply intercalate_cons_ne_empty
          apply mem_pySplit_ne_empty text
          have hmem : a ∈ ((pySplit text).drop (j * (cs - ov))).take cs := by
            rw [hw]
            simp
          exact List.mem_of_mem_drop (List.mem_of_mem_take hmem)
    · -- every token position is covered by some window
      intro t ht
      have hstep : 0 < cs - ov := by omega
      refine ⟨t / (cs - ov), ?_, Nat.div_mul_le_self t (cs - ov), ?_⟩
      · have hlen1 : 1 ≤ (pySplit text).length := by omega
        have hN : ((pySplit text).length + (cs - ov) - 1) / (cs - ov) =
            ((pySplit text).length - 1) / (cs - ov) + 1 := by
          have he : (pySplit text).length + (cs - ov) - 1 =
              ((pySplit text).length - 1) + (cs - ov) := by omega
          rw [he, Nat.add_div_right _ hstep]
        have hle : t / (cs - ov) ≤ ((pySplit text).length - 1) / (cs - ov) :=
          Nat.div_le_div_right (by omega)
        unfold chunksPos
        rw [List.length_map, List.length_range, hN]
        omega
      · have hmod := Nat.div_add_mod t (cs - ov)
        have hlt : t % (cs - ov) < cs - ov := Nat.mod_lt t hstep
        have hcomm : t / (cs - ov) * (cs - ov) = (cs - ov) * (t / (cs - ov)) :=
          Nat.mul_comm _ _
        omega
    · -- chunk j+1 starts one step after chunk j
      intro j hj
      unfold chunksPos at hj ⊢
      rw [List.length_map, List.length_range] at hj
      rw [List.getElem?_map, List.getElem?_range hj]
      simp only [Option.map_some']
      have harith : (j + 1) * (cs - ov) = j * (cs - ov) + (cs - ov) := by
        rw [Nat.add_mul]
        omega
      rw [harith]
  · decide

/-- Witness for C2 at the concrete input `"a b c"`, `chunk_size = 2`,
`overlap = 1`. -/
theorem chunk_text_windows_witness :
    (0 < 2 ∧ 1 < 2) ∧
      (ChunkSpecHolds "a b c" 2 1 ∧
        chunk_text "hello world" 300 50 2 = some ["hello world"]) :=
  ⟨⟨by decide, by decide⟩, chunk_text_windows "a b c" 2 1 (by decide) (by decide)⟩

/-- C1 (source behavior at the failing inputs): `chunk_text` performs no
validation of `overlap >= chunk_size`; on any such call whose text contains
at least one token the windowing loop runs with a non-positive step and
never exits — no amount of fuel makes the loop model return. -/
theorem chunk_text_overlap_ge_never_returns (text : String) (cs ov : Int)
    (hov : cs ≤ ov) (htok : pySplit text ≠ []) (fuel : Nat) :
    chunk_text text cs ov fuel = none := by
  unfold chunk_text
  exact chunkLoopFuel_nonpos_step (pySplit text) cs ov hov htok fuel 0 (le_refl 0)

/-- Witness for C1 at `chunk_text("hello world", 50, 50)`. -/
theorem chunk_text_overlap_ge_never_returns_witness :
    pySplit "hello world" ≠ [] ∧ chunk_text "hello world" 50 50 1000 = none :=
  ⟨by decide,
   chunk_text_overlap_ge_never_returns "hello world" 50 50 (by decide) (by decide) 1000⟩

lemma load_index_ok (fs : FS) (index : FaissIndex) (meta : List ChunkMeta)
    (hidx : fs.index_file = some index) (hmeta : fs.meta_file = some meta) :
    load_index fs = Except.ok (index, meta) := by
  unfold load_index
  rw [hidx, hmeta]

lemma load_index_missing (fs : FS)
    (h : fs.index_file = none ∨ fs.meta_file = none) :
    load_index fs = Except.error "Index or meta not found. Run rebuild first." := by
  unfold load_index
  rcases h with h | h
  · rw [h]
  · rw [h]
    cases fs.index_file <;> rfl

/-- The joining step of `query_index` for one `(score, idx)` pair: `none` for
a negative (filtered) index or an out-of-range one, otherwise the result
record built from `meta[idx]`. -/
def joinResult (meta : List ChunkMeta) (p : ℚ × Int) : Option QueryResult :=
  if p.2 < 0 then none
  else (meta.get? p.2.toNat).map (fun m => ⟨p.1, m.source, m.chunk_idx, m.text⟩)

lemma joinResult_some {meta : List ChunkMeta} {p : ℚ × Int} {r : QueryResult}
    (h : joinResult meta p = some r) :
    r.score = p.1 ∧ 0 ≤ p.2 ∧
      meta.get? p.2.toNat = some ⟨r.source, r.chunk_idx, r.text⟩ := by
  unfold joinResult at h
  by_cases hneg : p.2 < 0
  · rw [if_pos hneg] at h
    exact absurd h (by simp)
  · rw [if_neg hneg] at h
    cases hm : meta.get? p.2.toNat with
    | none =>
        rw [hm] at h
        simp at h
    | some m =>
        rw [hm] at h
        simp only [Option.map_some'] at h
        cases h
        exact ⟨rfl, by omega, rfl⟩

lemma query_results_eq (meta : List ChunkMeta) :
    ∀ l : List (ℚ × Int), (∀ p ∈ l, 0 ≤ p.2 → p.2.toNat < meta.length) →
      query_results meta l = some (l.filterMap (joinResult meta)) := by
  intro l
  induction l with
  | nil => intro _; rfl
  | cons p rest ih =>
      intro hvalid
      obtain ⟨score, idx⟩ := p
      have hrest : ∀ q ∈ rest, 0 ≤ q.2 → q.2.toNat < meta.length :=
        fun q hq => hvalid q (List.mem_cons_of_mem _ hq)
      rw [query_results, List.filterMap_cons]
      by_cases hneg : idx < 0
      · rw [if_pos hneg, ih hrest]
        have hj : joinResult meta (score, idx) = none := by
          unfold joinResult
          rw [if_pos hneg]
        rw [hj]
      · rw [if_neg hneg]
        have hval : idx.toNat < meta.length :=
          hvalid (score, idx) (by simp) (by omega)
        have hj : joinResult meta (score, idx) =
            some ⟨score, (meta.get ⟨idx.toNat, hval⟩).source,
              (meta.get ⟨idx.toNat, hval⟩).chunk_idx,
              (meta.get ⟨idx.toNat, hval⟩).text⟩ := by
          unfold joinResult
          rw [if_neg hneg, List.get?_eq_get hval]
          rfl
        rw [List.get?_eq_get hval, hj, ih hrest]
        rfl

lemma filterMap_joinResult_length (meta : List ChunkMeta) :
    ∀ l : List (ℚ × Int), (∀ p ∈ l, 0 ≤ p.2 → p.2.toNat < meta.length) →
      (l.filterMap (joinResult meta)).length =
        (l.filter (fun p => decide (0 ≤ p.2))).length := by
  intro l
  induction l with
  | nil => intro _; rfl
  | cons p rest ih =>
      intro hvalid
      have hrest : ∀ q ∈ rest, 0 ≤ q.2 → q.2.toNat < meta.length :=
        fun q hq => hvalid q (List.mem_cons_of_mem _ hq)
      rw [List.filterMap_cons, List.filter_cons]
      by_cases hneg : p.2 < 0
      · have hj : joinResult meta p = none := by
          unfold joinResult
          rw [if_pos hneg]
        have hd : (decide (0 ≤ p.2)) = false := by
          simp
          omega
        rw [hj, hd]
        simpa using ih hrest
      · have hval : p.2.toNat < meta.length := hvalid p (by simp) (by omega)
        have hj : joinResult meta p =
            some ⟨p.1, (meta.get ⟨p.2.toNat, hval⟩).source,
              (meta.get ⟨p.2.toNat, hval⟩).chunk_idx,
              (meta.get ⟨p.2.toNat, hval⟩).text⟩ := by
          unfold joinResult
          rw [if_neg hneg, List.get?_eq_get hval]
          rfl
        have hd : (decide (0 ≤ p.2)) = true := by
          simp
          omega
        rw [hj, hd]
        simp [ih hrest]

lemma vstack_some {rows xb : List (List ℚ)} {dim : Nat}
    (h : vstack rows = some (xb, dim)) : xb = rows := by
  cases rows with
  | nil => simp [vstack] at h
  | cons r rs =>
      rw [vstack] at h
      by_cases hall : rs.all (fun x => x.length == r.length)
      · rw [if_pos hall] at h
        simp only [Option.some.injEq, Prod.mk.injEq] at h
        exact h.1.symm
      · rw [if_neg hall] at h
        simp at h

lemma corpusChunks_nil {files : List (String × String)}
    (h : ∀ d ∈ load_text_files files, chunkText300 d.2 = []) :
    corpusChunks files = [] := by
  unfold corpusChunks
  rw [List.flatMap_eq_nil_iff]
  intro d hd
  rw [h d hd]
  rfl

lemma build_index_empty_corpus (embed : String → List ℚ) (nrm : List ℚ → List ℚ)
    (fs : FS) (files : List (String × String)) (hfs : fs.docs = some files)
    (hcc : corpusChunks files = []) :
    build_index embed nrm fs =
      (Except.error "No text chunks found in docs. Add .txt or .md files to ./docs",
       fs) := by
  unfold build_index
  rw [hfs]
  dsimp only
  rw [hcc]
  rfl

lemma build_index_ok_shape (embed : String → List ℚ) (nrm : List ℚ → List ℚ)
    (fs fs' : FS) (info : BuildInfo)
    (hbuild : build_index embed nrm fs = (Except.ok info, fs')) :
    ∃ files, fs.docs = some files ∧
      info.vectors = (corpusChunks files).length ∧
      fs'.docs = fs.docs ∧
      fs'.index_file = some ⟨info.dim,
        ((corpusChunks files).map (fun c => embed c.full_text)).map nrm⟩ ∧
      fs'.meta_file = some ((corpusChunks files).map
        (fun c => ChunkMeta.mk c.source c.chunk_idx (strTake c.full_text 600))) := by
  unfold build_index at hbuild
  cases hdocs : fs.docs with
  | none =>
      rw [hdocs] at hbuild
      dsimp only at hbuild
      exact absurd (congrArg Prod.fst hbuild) (by simp)
  | some files =>
      rw [hdocs] at hbuild
      dsimp only at hbuild
      by_cases hemp : ((corpusChunks files).map (fun c => embed c.full_text)).isEmpty
      · rw [if_pos hemp] at hbuild
        exact absurd (congrArg Prod.fst hbuild) (by simp)
      · rw [if_neg hemp] at hbuild
        cases hv : vstack ((corpusChunks files).map (fun c => embed c.full_text)) with
        | none =>
            rw [hv] at hbuild
            dsimp only at hbuild
            exact absurd (congrArg Prod.fst hbuild) (by simp)
        | some pr =>
            obtain ⟨xb, dim⟩ := pr
            rw [hv] at hbuild
            dsimp only at hbuild
            have hxb : xb = (corpusChunks files).map (fun c => embed c.full_text) :=
              vstack_some hv
            rw [Prod.mk.injEq] at hbuild
            obtain ⟨h1, h2⟩ := hbuild
            have hinfo : info = ⟨xb.length, dim⟩ := by
              cases h1
              rfl
            subst h2
            refine ⟨files, rfl, ?_, rfl, ?_, rfl⟩
            · rw [hinfo, hxb]
              simp
            · rw [hinfo, hxb]

/-- C3: for a loaded index, any query and `k`, `query_index` returns at most
`k` results sorted by non-increasing score; every negative ("no match")
placeholder returned by the engine is filtered out (the result count equals
the count of non-negative entries); and each remaining result carries the
stored chunk metadata at exactly the returned entry index.  The hypotheses
are the spec contract of the external engine: at most `k` entries, sorted
descending by score, valid non-negative indices. -/
theorem query_index_ranked_filtered (embed : String → List ℚ)
    (nrm : List ℚ → List ℚ)
    (engine : FaissIndex → List ℚ → Nat → List (ℚ × Int))
    (lang : String → String) (fs : FS) (q : String) (k : Nat)
    (index : FaissIndex) (meta : List ChunkMeta)
    (hidx : fs.index_file = some index) (hmeta : fs.meta_file = some meta)
    (hlen : (engine index (nrm (embed q)) k).length ≤ k)
    (hsort : (engine index (nrm (embed q)) k).Pairwise (fun a b => b.1 ≤ a.1))
    (hvalid : ∀ p ∈ engine index (nrm (embed q)) k,
      0 ≤ p.2 → p.2.toNat < meta.length) :
    ∃ resp, query_index embed nrm engine lang fs q k = Except.ok resp ∧
      resp.results.length ≤ k ∧
      resp.results.Pairwise (fun a b => b.score ≤ a.score) ∧
      (∀ r ∈ resp.results, ∃ p ∈ engine index (nrm (embed q)) k,
        0 ≤ p.2 ∧ r.score = p.1 ∧
        meta.get? p.2.toNat = some ⟨r.source, r.chunk_idx, r.text⟩) ∧
      resp.results.length =
        ((engine index (nrm (embed q)) k).filter
          (fun p => decide (0 ≤ p.2))).length := by
  refine ⟨⟨q, lang q,
    (engine index (nrm (embed q)) k).filterMap (joinResult meta)⟩,
    ?_, ?_, ?_, ?_, ?_⟩
  · unfold query_index
    rw [load_index_ok fs index meta hidx hmeta]
    dsimp only
    rw [query_results_eq meta _ hvalid]
  · exact (List.length_filterMap_le _ _).trans hlen
  · rw [List.pairwise_filterMap]
    refine hsort.imp ?_
    intro a b hab r hr r' hr'
    have ha := joinResult_some (Option.mem_def.mp hr)
    have hb := joinResult_some (Option.mem_def.mp hr')
    rw [ha.1, hb.1]
    exact hab
  · intro r hr
    obtain ⟨p, hp, hjp⟩ := List.mem_filterMap.mp hr
    obtain ⟨h1, h2, h3⟩ := joinResult_some hjp
    exact ⟨p, hp, h2, h1, h3⟩
  · exact filterMap_joinResult_length meta _ hvalid

/-- Witness for C3: a 2-entry metadata store and an engine answer
`[(5, 1), (3, 0), (2, -1)]` for `k = 3`. -/
theorem query_index_ranked_filtered_witness :
    (([((5 : ℚ), (1 : Int)), (3, 0), (2, -1)] : List (ℚ × Int)).length ≤ 3 ∧
      ([((5 : ℚ), (1 : Int)), (3, 0), (2, -1)] : List (ℚ × Int)).Pairwise
        (fun a b => b.1 ≤ a.1) ∧
      (∀ p ∈ ([((5 : ℚ), (1 : Int)), (3, 0), (2, -1)] : List (ℚ × Int)),
        0 ≤ p.2 → p.2.toNat <
          ([⟨"a.txt", 0, "alpha"⟩, ⟨"a.txt", 1, "beta"⟩] : List ChunkMeta).length)) ∧
    ∃ resp, query_index (fun _ => [1, 0]) (fun v => v)
        (fun _ _ _ => [((5 : ℚ), (1 : Int)), (3, 0), (2, -1)]) (fun _ => "en")
        ⟨none, some ⟨2, [[1, 0], [0, 1]]⟩,
          some [⟨"a.txt", 0, "alpha"⟩, ⟨"a.txt", 1, "beta"⟩]⟩ "hi" 3 =
        Except.ok resp ∧
      resp.results.length ≤ 3 ∧
      resp.results.Pairwise (fun a b => b.score ≤ a.score) ∧
      (∀ r ∈ resp.results,
        ∃ p ∈ ([((5 : ℚ), (1 : Int)), (3, 0), (2, -1)] : List (ℚ × Int)),
        0 ≤ p.2 ∧ r.score = p.1 ∧
        ([⟨"a.txt", 0, "alpha"⟩, ⟨"a.txt", 1, "beta"⟩] : List ChunkMeta).get?
            p.2.toNat = some ⟨r.source, r.chunk_idx, r.text⟩) ∧
      resp.results.length =
        (([((5 : ℚ), (1 : Int)), (3, 0), (2, -1)] : List (ℚ × Int)).filter
          (fun p => decide (0 ≤ p.2))).length :=
  ⟨⟨by decide, by decide, by decide⟩,
   query_index_ranked_filtered (fun _ => [1, 0]) (fun v => v)
     (fun _ _ _ => [((5 : ℚ), (1 : Int)), (3, 0), (2, -1)]) (fun _ => "en")
     ⟨none, some ⟨2, [[1, 0], [0, 1]]⟩,
       some [⟨"a.txt", 0, "alpha"⟩, ⟨"a.txt", 1, "beta"⟩]⟩ "hi" 3
     ⟨2, [[1, 0], [0, 1]]⟩ [⟨"a.txt", 0, "alpha"⟩, ⟨"a.txt", 1, "beta"⟩]
     rfl rfl (by decide) (by decide) (by decide)⟩

/-- C4: persisting an index during a successful build and then loading it
back yields the same entry count and dimension, and (since the loaded
artifacts are exactly the ones built in memory) every deterministic search
over the loaded index returns the same results as over the in-memory index
immediately after build — exact equality, which subsumes the claim's
floating-point tolerance. -/
theorem build_then_load_roundtrip (embed : String → List ℚ)
    (nrm : List ℚ → List ℚ) (fs fs' : FS) (info : BuildInfo)
    (hbuild : build_index embed nrm fs = (Except.ok info, fs')) :
    ∃ index meta, fs'.index_file = some index ∧ fs'.meta_file = some meta ∧
      load_index fs' = Except.ok (index, meta) ∧
      index.vectors.length = info.vectors ∧
      index.dim = info.dim ∧
      meta.length = info.vectors ∧
      ∀ (search : FaissIndex → List ℚ → Nat → List (ℚ × Int))
        (qv : List ℚ) (k : Nat),
        ∃ loaded : FaissIndex × List ChunkMeta,
          load_index fs' = Except.ok loaded ∧
          search loaded.1 qv k = search index qv k := by
  obtain ⟨files, hdocs, hvec, _, hidx, hmeta⟩ :=
    build_index_ok_shape embed nrm fs fs' info hbuild
  refine ⟨_, _, hidx, hmeta, load_index_ok fs' _ _ hidx hmeta, ?_, rfl, ?_, ?_⟩
  · simp [hvec]
  · simp [hvec]
  · intro search qv k
    exact ⟨_, load_index_ok fs' _ _ hidx hmeta, rfl⟩

/-- Witness for C4: a one-file corpus `"hello world"`, a constant embedding
capability of dimension 2, identity normalization. -/
theorem build_then_load_roundtrip_witness :
    build_index (fun _ => [(1 : ℚ), 2]) (fun v => v)
        ⟨some [("a.txt", "hello world")], none, none⟩ =
      (Except.ok ⟨1, 2⟩,
       ⟨some [("a.txt", "hello world")], some ⟨2, [[(1 : ℚ), 2]]⟩,
        some [⟨"a.txt", 0, "hello world"⟩]⟩) ∧
    ∃ index meta,
      (⟨some [("a.txt", "hello world")], some ⟨2, [[(1 : ℚ), 2]]⟩,
        some [⟨"a.txt", 0, "hello world"⟩]⟩ : FS).index_file = some index ∧
      (⟨some [("a.txt", "hello world")], some ⟨2, [[(1 : ℚ), 2]]⟩,
        some [⟨"a.txt", 0, "hello world"⟩]⟩ : FS).meta_file = some meta ∧
      load_index ⟨some [("a.txt", "hello world")], some ⟨2, [[(1 : ℚ), 2]]⟩,
        some [⟨"a.txt", 0, "hello world"⟩]⟩ = Except.ok (index, meta) ∧
      index.vectors.length = (⟨1, 2⟩ : BuildInfo).vectors ∧
      index.dim = (⟨1, 2⟩ : BuildInfo).dim ∧
      meta.length = (⟨1, 2⟩ : BuildInfo).vectors ∧
      ∀ (search : FaissIndex → List ℚ → Nat → List (ℚ × Int))
        (qv : List ℚ) (k : Nat),
        ∃ loaded : FaissIndex × List ChunkMeta,
          load_index ⟨some [("a.txt", "hello world")], some ⟨2, [[(1 : ℚ), 2]]⟩,
            some [⟨"a.txt", 0, "hello world"⟩]⟩ = Except.ok loaded ∧
          search loaded.1 qv k = search index qv k :=
  ⟨rfl,
   build_then_load_roundtrip (fun _ => [(1 : ℚ), 2]) (fun v => v)
     ⟨some [("a.txt", "hello world")], none, none⟩
     ⟨some [("a.txt", "hello world")], some ⟨2, [[(1 : ℚ), 2]]⟩,
      some [⟨"a.txt", 0, "hello world"⟩]⟩ ⟨1, 2⟩ rfl⟩

/-- C5 counterexample: concrete persisted artifacts with 1 vector but 2
metadata records; `load_index` succeeds and returns the mismatched join
instead of failing. -/
theorem load_index_mismatch_counterexample :
    load_index ⟨none, some ⟨1, [[(1 : ℚ)]]⟩,
        some [⟨"a.txt", 0, "x"⟩, ⟨"a.txt", 1, "y"⟩]⟩ =
      Except.ok (⟨1, [[(1 : ℚ)]]⟩, [⟨"a.txt", 0, "x"⟩, ⟨"a.txt", 1, "y"⟩]) ∧
    (FaissIndex.mk 1 [[(1 : ℚ)]]).vectors.length ≠
      ([⟨"a.txt", 0, "x"⟩, ⟨"a.txt", 1, "y"⟩] : List ChunkMeta).length :=
  ⟨rfl, by decide⟩

/-- C5 amended: `load_index` performs no entry-count integrity check —
whenever both artifacts are present it succeeds and returns them as-is,
even when their entry counts differ; it fails only when an artifact is
missing. -/
theorem load_index_no_count_check (fs : FS) (index : FaissIndex)
    (meta : List ChunkMeta) (hidx : fs.index_file = some index)
    (hmeta : fs.meta_file = some meta)
    (hmismatch : index.vectors.length ≠ meta.length) :
    load_index fs = Except.ok (index, meta) :=
  load_index_ok fs index meta hidx hmeta

/-- Witness for the amended C5. -/
theorem load_index_no_count_check_witness :
    load_index ⟨none, some ⟨1, [[(2 : ℚ)]]⟩,
        some [⟨"b.txt", 0, "u"⟩, ⟨"b.txt", 1, "v"⟩]⟩ =
      Except.ok (⟨1, [[(2 : ℚ)]]⟩, [⟨"b.txt", 0, "u"⟩, ⟨"b.txt", 1, "v"⟩]) :=
  load_index_no_count_check _ _ _ rfl rfl (by decide)

/-- C6: when the docs directory is missing or the corpus yields zero
chunks, `build_index` fails with an explicit error and leaves the
filesystem state — in particular both persisted artifacts — unchanged. -/
theorem build_index_error_no_partial_state (embed : String → List ℚ)
    (nrm : List ℚ → List ℚ) (fs : FS)
    (h : fs.docs = none ∨ ∃ files, fs.docs = some files ∧
      ∀ d ∈ load_text_files files, chunkText300 d.2 = []) :
    (∃ msg, (build_index embed nrm fs).1 = Except.error msg) ∧
      (build_index embed nrm fs).2 = fs := by
  rcases h with hnone | ⟨files, hfiles, hempty⟩
  · unfold build_index
    rw [hnone]
    exact ⟨⟨_, rfl⟩, rfl⟩
  · rw [build_index_empty_corpus embed nrm fs files hfiles (corpusChunks_nil hempty)]
    exact ⟨⟨_, rfl⟩, rfl⟩

/-- Witness for C6 at a missing docs directory. -/
theorem build_index_error_no_partial_state_witness :
    (∃ msg, (build_index (fun _ => [(1 : ℚ)]) (fun v => v)
        ⟨none, none, none⟩).1 = Except.error msg) ∧
      (build_index (fun _ => [(1 : ℚ)]) (fun v => v) ⟨none, none, none⟩).2 =
        ⟨none, none, none⟩ :=
  build_index_error_no_partial_state (fun _ => [(1 : ℚ)]) (fun v => v)
    ⟨none, none, none⟩ (Or.inl rfl)

/-- C7: a query issued while either persisted artifact is missing fails
with the explicit "not found" missing-index error and is never a
successful (possibly empty) response. -/
theorem query_index_missing_index_error (embed : String → List ℚ)
    (nrm : List ℚ → List ℚ)
    (engine : FaissIndex → List ℚ → Nat → List (ℚ × Int))
    (lang : String → String) (fs : FS) (q : String) (k : Nat)
    (h : fs.index_file = none ∨ fs.meta_file = none) :
    query_index embed nrm engine lang fs q k =
        Except.error "Index or meta not found. Run rebuild first." ∧
      ∀ resp : QueryResponse,
        query_index embed nrm engine lang fs q k ≠ Except.ok resp := by
  have hq : query_index embed nrm engine lang fs q k =
      Except.error "Index or meta not found. Run rebuild first." := by
    unfold query_index
    rw [load_index_missing fs h]
  refine ⟨hq, ?_⟩
  intro resp hcon
  rw [hq] at hcon
  exact absurd hcon (by simp)

/-- Witness for C7 on the empty filesystem state. -/
theorem query_index_missing_index_error_witness :
    query_index (fun _ => [(1 : ℚ)]) (fun v => v) (fun _ _ _ => [])
        (fun _ => "en") ⟨none, none, none⟩ "hi" 3 =
        Except.error "Index or meta not found. Run rebuild first." ∧
      ∀ resp : QueryResponse,
        query_index (fun _ => [(1 : ℚ)]) (fun v => v) (fun _ _ _ => [])
          (fun _ => "en") ⟨none, none, none⟩ "hi" 3 ≠ Except.ok resp :=
  query_index_missing_index_error (fun _ => [(1 : ℚ)]) (fun v => v)
    (fun _ _ _ => []) (fun _ => "en") ⟨none, none, none⟩ "hi" 3 (Or.inl rfl)

/-- C8: in every successful build, the metadata record at position `i`
stores the chunk text truncated to its first 600 characters, while the
vector at position `i` is the (normalized) embedding of the full chunk
text — so the truncation never affects the embedded vector. -/
theorem build_index_truncation (embed : String → List ℚ)
    (nrm : List ℚ → List ℚ) (fs fs' : FS) (info : BuildInfo)
    (hbuild : build_index embed nrm fs = (Except.ok info, fs')) :
    ∃ files index meta, fs.docs = some files ∧
      fs'.index_file = some index ∧ fs'.meta_file = some meta ∧
      ∀ i : Nat, ∀ m ∈ meta.get? i, ∃ c ∈ (corpusChunks files).get? i,
        m.text = strTake c.full_text 600 ∧
        index.vectors.get? i = some (nrm (embed c.full_text)) := by
  obtain ⟨files, hdocs, hvec, _, hidx, hmeta⟩ :=
    build_index_ok_shape embed nrm fs fs' info hbuild
  refine ⟨files, _, _, hdocs, hidx, hmeta, ?_⟩
  intro i m hm
  rw [Option.mem_def, List.get?_map] at hm
  obtain ⟨c, hc, hcm⟩ := Option.map_eq_some'.mp hm
  refine ⟨c, Option.mem_def.mpr hc, ?_, ?_⟩
  · rw [← hcm]
  · rw [List.get?_map, List.get?_map, hc]
    rfl

/-- Witness for C8 at the one-file corpus `"hello world"`. -/
theorem build_index_truncation_witness :
    ∃ files index meta,
      (⟨some [("a.txt", "hello world")], none, none⟩ : FS).docs = some files ∧
      (⟨some [("a.txt", "hello world")], some ⟨2, [[(1 : ℚ), 2]]⟩,
        some [⟨"a.txt", 0, "hello world"⟩]⟩ : FS).index_file = some index ∧
      (⟨some [("a.txt", "hello world")], some ⟨2, [[(1 : ℚ), 2]]⟩,
        some [⟨"a.txt", 0, "hello world"⟩]⟩ : FS).meta_file = some meta ∧
      ∀ i : Nat, ∀ m ∈ meta.get? i, ∃ c ∈ (corpusChunks files).get? i,
        m.text = strTake c.full_text 600 ∧
        index.vectors.get? i = some ((fun v => v) ((fun _ => [(1 : ℚ), 2]) c.full_text)) :=
  build_index_truncation (fun _ => [(1 : ℚ), 2]) (fun v => v)
    ⟨some [("a.txt", "hello world")], none, none⟩
    ⟨some [("a.txt", "hello world")], some ⟨2, [[(1 : ℚ), 2]]⟩,
     some [⟨"a.txt", 0, "hello world"⟩]⟩ ⟨1, 2⟩ rfl

/-- C9: every successful build maintains the IndexEntry invariant — as many
vectors as metadata records; the record and the vector at position `i`
describe the same chunk (metadata with truncated text, vector as the
normalized embedding); and entries appear in source-document order with
`chunk_idx` running `0, 1, 2, ...` within each source document. -/
theorem build_index_pairing_order (embed : String → List ℚ)
    (nrm : List ℚ → List ℚ) (fs fs' : FS) (info : BuildInfo)
    (hbuild : build_index embed nrm fs = (Except.ok info, fs')) :
    ∃ files index meta, fs.docs = some files ∧
      fs'.index_file = some index ∧ fs'.meta_file = some meta ∧
      index.vectors.length = meta.length ∧
      meta.length = info.vectors ∧
      (∀ i : Nat, ∀ c ∈ (corpusChunks files).get? i,
        meta.get? i = some ⟨c.source, c.chunk_idx, strTake c.full_text 600⟩ ∧
        index.vectors.get? i = some (nrm (embed c.full_text))) ∧
      meta.map ChunkMeta.source = (load_text_files files).flatMap
        (fun d => List.replicate (chunkText300 d.2).length (basename d.1)) ∧
      meta.map ChunkMeta.chunk_idx = (load_text_files files).flatMap
        (fun d => List.range (chunkText300 d.2).length) := by
  obtain ⟨files, hdocs, hvec, _, hidx, hmeta⟩ :=
    build_index_ok_shape embed nrm fs fs' info hbuild
  refine ⟨files, _, _, hdocs, hidx, hmeta, by simp, by simp [hvec], ?_, ?_, ?_⟩
  · intro i c hc
    rw [Option.mem_def] at hc
    constructor
    · rw [List.get?_map, hc]
      rfl
    · rw [List.get?_map, List.get?_map, hc]
      rfl
  · rw [List.map_map]
    unfold corpusChunks
    rw [List.map_flatMap]
    congr 1
    funext d
    rw [List.map_map]
    rw [show ((ChunkMeta.source ∘ fun c : ChunkRec =>
        ChunkMeta.mk c.source c.chunk_idx (strTake c.full_text 600)) ∘
        fun p : Nat × String => ChunkRec.mk (basename d.1) p.1 p.2) =
        (fun _ => basename d.1) from rfl]
    rw [List.map_const', List.enum_length]
  · rw [List.map_map]
    unfold corpusChunks
    rw [List.map_flatMap]
    congr 1
    funext d
    rw [List.map_map]
    rw [show ((ChunkMeta.chunk_idx ∘ fun c : ChunkRec =>
        ChunkMeta.mk c.source c.chunk_idx (strTake c.full_text 600)) ∘
        fun p : Nat × String => ChunkRec.mk (basename d.1) p.1 p.2) =
        (Prod.fst : Nat × String → Nat) from rfl]
    rw [List.enum_map_fst]

/-- Witness for C9 at a two-file corpus. -/
theorem build_index_pairing_order_witness :
    ∃ files index meta,
      (⟨some [("a.txt", "one two"), ("b.md", "three")], none, none⟩ : FS).docs =
        some files ∧
      (⟨some [("a.txt", "one two"), ("b.md", "three")],
        some ⟨1, [[(3 : ℚ)], [3]]⟩,
        some [⟨"a.txt", 0, "one two"⟩, ⟨"b.md", 0, "three"⟩]⟩ : FS).index_file =
        some index ∧
      (⟨some [("a.txt", "one two"), ("b.md", "three")],
        some ⟨1, [[(3 : ℚ)], [3]]⟩,
        some [⟨"a.txt", 0, "one two"⟩, ⟨"b.md", 0, "three"⟩]⟩ : FS).meta_file =
        some meta ∧
      index.vectors.length = meta.length ∧
      meta.length = (⟨2, 1⟩ : BuildInfo).vectors ∧
      (∀ i : Nat, ∀ c ∈ (corpusChunks files).get? i,
        meta.get? i = some ⟨c.source, c.chunk_idx, strTake c.full_text 600⟩ ∧
        index.vectors.get? i =
          some ((fun v => v) ((fun _ => [(3 : ℚ)]) c.full_text))) ∧
      meta.map ChunkMeta.source = (load_text_files files).flatMap
        (fun d => List.replicate (chunkText300 d.2).length (basename d.1)) ∧
      meta.map ChunkMeta.chunk_idx = (load_text_files files).flatMap
        (fun d => List.range (chunkText300 d.2).length) :=
  build_index_pairing_order (fun _ => [(3 : ℚ)]) (fun v => v)
    ⟨some [("a.txt", "one two"), ("b.md", "three")], none, none⟩
    ⟨some [("a.txt", "one two"), ("b.md", "three")],
     some ⟨1, [[(3 : ℚ)], [3]]⟩,
     some [⟨"a.txt", 0, "one two"⟩, ⟨"b.md", 0, "three"⟩]⟩ ⟨2, 1⟩ rfl

/-- C10: a text with no whitespace-delimited tokens chunks to the empty
sequence (the loop body never runs, so no empty chunk is emitted), and a
corpus whose eligible files are all empty or whitespace-only produces zero
chunks, so `build_index` raises the empty-corpus error and leaves the
filesystem state unchanged. -/
theorem chunk_text_no_tokens (text : String) (cs ov : Int) (fuel : Nat)
    (embed : String → List ℚ) (nrm : List ℚ → List ℚ) (fs : FS)
    (files : List (String × String))
    (htext : pySplit text = [])
    (hfs : fs.docs = some files)
    (hall : ∀ d ∈ load_text_files files, pySplit d.2 = []) :
    chunk_text text cs ov fuel = some [] ∧
      build_index embed nrm fs =
        (Except.error "No text chunks found in docs. Add .txt or .md files to ./docs",
         fs) := by
  constructor
  · unfold chunk_text
    rw [htext]
    cases fuel <;> simp [chunkLoopFuel]
  · apply build_index_empty_corpus embed nrm fs files hfs
    apply corpusChunks_nil
    intro d hd
    unfold chunkText300
    rw [hall d hd]
    rfl

/-- Witness for C10: a whitespace-only query text and a corpus of one
whitespace-only `.txt` file. -/
theorem chunk_text_no_tokens_witness :
    chunk_text "   " 7 3 5 = some [] ∧
      build_index (fun _ => [(1 : ℚ)]) (fun v => v)
          ⟨some [("a.txt", "  ")], none, none⟩ =
        (Except.error "No text chunks found in docs. Add .txt or .md files to ./docs",
         ⟨some [("a.txt", "  ")], none, none⟩) :=
  chunk_text_no_tokens "   " 7 3 5 (fun _ => [(1 : ℚ)]) (fun v => v)
    ⟨some [("a.txt", "  ")], none, none⟩ [("a.txt", "  ")]
    (by decide) rfl (by decide)
